import Mathlib

/-!
Verification of the hive task-queue store (`src/hive/db.py`) and the
coordinator's remote-storage helpers (`src/hive/coordinator.py`).

The SQLite tables are embedded as Lean lists of rows, kept in rowid
(= `id`) order exactly as SQLite stores and scans them; wall-clock
seconds (Python floats holding `time.time()` values) are embedded as
rationals; SQL `NULL`-able columns are `Option`s.  Each queue-store
operation is translated statement by statement from `db.py`.
-/

namespace Hive

/-- A row of the `tasks` table (`init_db` in `db.py`).  `status` is the
raw TEXT column; `worker`, `assigned_at`, `completed_at`, `method`,
`char_count`, `error` are nullable. -/
structure Task where
  id : Nat
  pdf_path : String
  text_path : String
  status : String
  worker : Option String
  assigned_at : Option ℚ
  completed_at : Option ℚ
  method : Option String
  char_count : Option Int
  error : Option String
deriving DecidableEq, Repr

/-- A row of the `workers` table. -/
structure WorkerRow where
  name : String
  ip : String
  cores : Int
  last_seen : ℚ
  tasks_completed : Int
  tasks_failed : Int
  cpu_pct : ℚ
  ram_used_gb : ℚ
  ram_total_gb : ℚ
  gpu_pct : Option ℚ
  gpu_temp : Option ℚ
  cpu_temp : Option ℚ
deriving DecidableEq, Repr

/-- The mutable store: the `tasks` and `workers` tables.  (The `rate_log`
table is passed separately to the rate functions.) -/
structure DBState where
  tasks : List Task
  workers : List WorkerRow
deriving DecidableEq, Repr

/-! ## pull_tasks (`db.py` lines 78–97)

The SELECT step: `SELECT id, pdf_path, text_path FROM tasks WHERE
status='pending' LIMIT ?`.  The table is scanned in rowid order (the
rows are kept sorted by `id`), so the first `batch_size` pending rows
are taken. -/

def pullSelect (tasks : List Task) (batch_size : Nat) : List Task :=
  (tasks.filter (fun t => t.status == "pending")).take batch_size

/-- The UPDATE step: `UPDATE tasks SET status='assigned', worker=?,
assigned_at=? WHERE id IN (...)`. -/
def pullUpdate (tasks : List Task) (ids : List Nat) (worker : String) (now : ℚ) :
    List Task :=
  tasks.map (fun t =>
    if t.id ∈ ids then
      { t with status := "assigned", worker := some worker, assigned_at := some now }
    else t)

/-- `pull_tasks(worker, batch_size)`: select pending rows, and unless the
selection is empty, mark them assigned; return the new table and the
selected `(id, pdf_path, text_path)` triples. -/
def pull_tasks (tasks : List Task) (worker : String) (batch_size : Nat) (now : ℚ) :
    List Task × List (Nat × String × String) :=
  let rows := pullSelect tasks batch_size
  if rows.isEmpty then (tasks, [])
  else
    (pullUpdate tasks (rows.map (·.id)) worker now,
     rows.map (fun r => (r.id, r.pdf_path, r.text_path)))

/-- A fresh pending task row, as inserted by `add_tasks`. -/
def mkPendingTask (id : Nat) (pdf text : String) : Task :=
  ⟨id, pdf, text, "pending", none, none, none, none, none, none⟩

/-! ## add_tasks (`db.py` lines 59–71)

`INSERT OR IGNORE INTO tasks (pdf_path, text_path) VALUES (?, ?)` for
each pair; a pair whose `pdf_path` collides with an existing row (the
column is UNIQUE) is ignored and not counted in `cursor.rowcount`.
The internal batching by 500 does not change the outcome, so the fold
runs over the whole list.  A fresh `id` is `max(rowid)+1`. -/

def nextId (tasks : List Task) : Nat :=
  tasks.foldl (fun m t => max m t.id) 0 + 1

/-- One `INSERT OR IGNORE` step: skip the pair when its `pdf_path` is
already in the table, otherwise append a fresh pending row and count it. -/
def addStep (acc : List Task × Nat) (pr : String × String) : List Task × Nat :=
  if acc.1.any (fun t => t.pdf_path == pr.1) then acc
  else (acc.1 ++ [mkPendingTask (nextId acc.1) pr.1 pr.2], acc.2 + 1)

def add_tasks (tasks : List Task) (pairs : List (String × String)) :
    List Task × Nat :=
  pairs.foldl addStep (tasks, 0)

/-! ## report_results (`db.py` lines 100–131) -/

/-- One entry of the `results` list handed to `report_results`: Python
dict keys that may be absent are `Option`s (`none` = key missing). -/
structure ResultR where
  task_id : Nat
  status : String
  method : Option String
  char_count : Option Int
  error : Option String
  worker : Option String
deriving DecidableEq, Repr

/-- The per-result UPDATE: done results get
`status='done', completed_at=now, method, char_count, error=NULL`;
every other result gets
`status='failed', completed_at=now, error (default "unknown"), method`.
There is no status guard: any row with the matching id is rewritten. -/
def applyResultTask (now : ℚ) (r : ResultR) (t : Task) : Task :=
  if t.id = r.task_id then
    if r.status = "done" then
      { t with status := "done", completed_at := some now, method := r.method,
               char_count := r.char_count, error := none }
    else
      { t with status := "failed", completed_at := some now,
               error := some (r.error.getD "unknown"), method := r.method }
  else t

def applyResult (now : ℚ) (ts : List Task) (r : ResultR) : List Task :=
  ts.map (applyResultTask now r)

def applyResults (now : ℚ) (ts : List Task) (results : List ResultR) : List Task :=
  results.foldl (applyResult now) ts

/-- `done_count`: every result with status "done" is counted, whether or
not its task id matches a row. -/
def doneCount (results : List ResultR) : Nat :=
  (results.filter (fun r => r.status == "done")).length

def failCount (results : List ResultR) : Nat :=
  (results.filter (fun r => !(r.status == "done"))).length

/-- `worker_name = r.get("worker", worker_name)` folded over the batch:
the last result that carries a `worker` key wins. -/
def lastWorkerName (results : List ResultR) : Option String :=
  results.foldl (fun acc r => match r.worker with | some w => some w | none => acc) none

/-- The trailing `UPDATE workers SET tasks_completed = tasks_completed + ?,
tasks_failed = tasks_failed + ?, last_seen = ? WHERE name = ?`. -/
def updateWorkerCounts (ws : List WorkerRow) (name : String) (dc fc : Nat) (now : ℚ) :
    List WorkerRow :=
  ws.map (fun w =>
    if w.name = name then
      { w with tasks_completed := w.tasks_completed + dc,
               tasks_failed := w.tasks_failed + fc, last_seen := now }
    else w)

/-- `report_results(results)`: apply every per-result UPDATE, then — when
`worker_name` is truthy (a non-empty string) — bump that worker's
counters by the batch totals. -/
def report_results (st : DBState) (results : List ResultR) (now : ℚ) : DBState :=
  let ts := applyResults now st.tasks results
  let ws :=
    match lastWorkerName results with
    | some w =>
        if w = "" then st.workers
        else updateWorkerCounts st.workers w (doneCount results) (failCount results) now
    | none => st.workers
  ⟨ts, ws⟩

/-! ## recover_stale (`db.py` lines 134–144) -/

/-- The WHERE clause `status='assigned' AND assigned_at < cutoff`; a
NULL `assigned_at` compares as NULL, hence does not match. -/
def isStale (cutoff : ℚ) (t : Task) : Bool :=
  t.status == "assigned" &&
    (match t.assigned_at with
     | some a => decide (a < cutoff)
     | none => false)

/-- `recover_stale(minutes)`: reset every stale row to
`status='pending', worker=NULL, assigned_at=NULL`; return the new table
and `cursor.rowcount`, the number of rows the UPDATE matched. -/
def recover_stale (tasks : List Task) (minutes now : ℚ) : List Task × Nat :=
  let cutoff := now - minutes * 60
  (tasks.map (fun t =>
     if isStale cutoff t then
       { t with status := "pending", worker := none, assigned_at := none }
     else t),
   (tasks.filter (isStale cutoff)).length)

/-! ## register_worker (`db.py` lines 147–154)

`INSERT ... ON CONFLICT(name) DO UPDATE SET ip=?, cores=?, last_seen=?`:
an upsert keyed on `name` that, on conflict, rewrites only `ip`,
`cores`, `last_seen`; the INSERT path fills the remaining columns with
their schema defaults. -/

def register_worker (ws : List WorkerRow) (name ip : String) (cores : Int) (now : ℚ) :
    List WorkerRow :=
  if ws.any (fun w => w.name == name) then
    ws.map (fun w =>
      if w.name = name then { w with ip := ip, cores := cores, last_seen := now }
      else w)
  else
    ws ++ [{ name := name, ip := ip, cores := cores, last_seen := now,
             tasks_completed := 0, tasks_failed := 0, cpu_pct := 0,
             ram_used_gb := 0, ram_total_gb := 0,
             gpu_pct := none, gpu_temp := none, cpu_temp := none }]

/-! ## get_rate_info (`db.py` lines 219–257)

`timestamp` values are `time.time()` floats; the concrete samples the
claims use are exactly representable, so the arithmetic is embedded over
ℚ.  Python's `round(x, 1)` rounds to one decimal with ties to even, and
`int(x)` truncates toward zero. -/

/-- Nearest integer, ties to even (Python's `round(x)` on exact values). -/
def rndHalfEven (x : ℚ) : Int :=
  let f := Int.floor x
  let frac := x - f
  if frac < 1 / 2 then f
  else if 1 / 2 < frac then f + 1
  else if f % 2 = 0 then f else f + 1

/-- `round(x, 1)`. -/
def round1 (x : ℚ) : ℚ := (rndHalfEven (10 * x) : ℚ) / 10

/-- `int(x)`: truncation toward zero. -/
def pyInt (x : ℚ) : Int :=
  if x < 0 then -Int.floor (-x) else Int.floor x

structure RateInfo where
  rate_per_sec : ℚ
  eta_seconds : Int
  history : List ℚ
deriving DecidableEq, Repr

/-- `SELECT status, COUNT(*) ... GROUP BY status` restricted to one status. -/
def countStatus (tasks : List Task) (s : String) : Nat :=
  (tasks.filter (fun t => t.status == s)).length

/-- The per-interval rates over consecutive samples:
`round(dc/dt, 1)` when `dt > 0`, else `0`. -/
def rateHistory (rows : List (ℚ × Int)) : List ℚ :=
  (rows.zip rows.tail).map (fun pr =>
    let dt := pr.2.1 - pr.1.1
    let dc := ((pr.2.2 - pr.1.2 : Int) : ℚ)
    if 0 < dt then round1 (dc / dt) else 0)

/-- The unrounded instantaneous rate: over the first and last sample of
the last 60 seconds when at least two such samples exist, else over the
last two samples overall; `0` when the time delta is not positive. -/
def currentRate (rows : List (ℚ × Int)) (now : ℚ) : ℚ :=
  let recent := rows.filter (fun r => decide (now - 60 < r.1))
  if 2 ≤ recent.length then
    let a := recent.headD (0, 0)
    let b := recent.getLastD (0, 0)
    if 0 < b.1 - a.1 then ((b.2 - a.2 : Int) : ℚ) / (b.1 - a.1) else 0
  else
    let a := rows.dropLast.getLastD (0, 0)
    let b := rows.getLastD (0, 0)
    if 0 < b.1 - a.1 then ((b.2 - a.2 : Int) : ℚ) / (b.1 - a.1) else 0

/-- `get_rate_info()`: `rows` is the `rate_log` table in ascending
`timestamp` order; `tasks` supplies `get_stats()`'s pending+assigned. -/
def get_rate_info (tasks : List Task) (rows : List (ℚ × Int)) (now : ℚ) : RateInfo :=
  if rows.length < 2 then ⟨0, 0, []⟩
  else
    let rate := currentRate rows now
    let remaining := ((countStatus tasks "pending" + countStatus tasks "assigned" : Nat) : ℚ)
    let eta := if 0 < rate then pyInt (remaining / rate) else 0
    ⟨round1 rate, eta, rateHistory rows⟩

/-! ## Remote-storage helpers (`coordinator.py` lines 32–60)

Each helper shells out through `subprocess.run(["ssh", user@host, ...],
timeout=...)`; the embedding records the argument vector and the timeout
in seconds. -/

structure SshOp where
  args : List String
  timeout_s : ℚ
deriving DecidableEq, Repr

/-- `_ssh_cmd(info, cmd)`: the generic command helper, `timeout=120`. -/
def ssh_cmd (user host cmd : String) : SshOp :=
  ⟨["ssh", user ++ "@" ++ host, cmd], 120⟩

/-- `_scan_pdfs`'s remote enumeration: one `find` through `_ssh_cmd`. -/
def scan_find (user host root : String) : SshOp :=
  ssh_cmd user host ("find \x22" ++ root ++ "\x22 -name \x22*.pdf\x22 -type f")

/-- `_ssh_read_file(info, path)`: a single `cat`,
`timeout=STALE_MINUTES * 60`. -/
def ssh_read_file (user host path : String) (stale_minutes : Nat) : SshOp :=
  ⟨["ssh", user ++ "@" ++ host, "cat", "\x22" ++ path ++ "\x22"],
   (stale_minutes : ℚ) * 60⟩

/-- `_ssh_write_file(info, path, data)`: a `mkdir -p` with `timeout=30`
followed by a `cat > path` with `timeout=120`. -/
def ssh_write_file (user host dir path : String) : SshOp × SshOp :=
  (⟨["ssh", user ++ "@" ++ host, "mkdir", "-p", "\x22" ++ dir ++ "\x22"], 30⟩,
   ⟨["ssh", user ++ "@" ++ host, "cat > \x22" ++ path ++ "\x22"], 120⟩)

/-! ## Operation sequences over the tasks table

For the transition-discipline claim the three queue-store operations
that touch task statuses are replayed over the table. -/

inductive Op where
  | pull (worker : String) (batch_size : Nat) (now : ℚ)
  | report (results : List ResultR) (now : ℚ)
  | recover (minutes now : ℚ)
deriving Repr

def applyOp (tasks : List Task) : Op → List Task
  | .pull w n now => (pull_tasks tasks w n now).1
  | .report rs now => applyResults now tasks rs
  | .recover m now => (recover_stale tasks m now).1

/-- The four transitions of the spec's state diagram. -/
def allowedTransition (a b : String) : Bool :=
  (a == "pending" && b == "assigned") || (a == "assigned" && b == "done") ||
  (a == "assigned" && b == "failed") || (a == "assigned" && b == "pending")

/-- One operation's effect respects the diagram: rows are preserved
positionally and each row's status is unchanged or steps along an
allowed transition. -/
def stepOk (ts ts' : List Task) : Bool :=
  ts.length == ts'.length &&
    (ts.zip ts').all (fun p =>
      p.1.status == p.2.status || allowedTransition p.1.status p.2.status)

/-- Every step along the replay of `ops` respects the diagram. -/
def traceOk : List Task → List Op → Bool
  | _, [] => true
  | ts, op :: rest => stepOk ts (applyOp ts op) && traceOk (applyOp ts op) rest

/-- Every `report` in the replay targets only rows that are currently
`assigned` (a missing id targets no row). -/
def reportsTargetAssigned : List Task → List Op → Bool
  | _, [] => true
  | ts, op :: rest =>
    (match op with
     | .report rs _ =>
         rs.all (fun r => ts.all (fun t => t.id != r.task_id || t.status == "assigned"))
     | _ => true) && reportsTargetAssigned (applyOp ts op) rest

/-! ## Shared lemmas -/

theorem isStale_iff (cutoff : ℚ) (t : Task) :
    isStale cutoff t = true ↔
      t.status = "assigned" ∧ ∃ a, t.assigned_at = some a ∧ a < cutoff := by
  cases h : t.assigned_at <;>
    simp [isStale, h, and_comm]

/-! ## C9: remote-shell timeouts -/

/-- C9 counterexample: the remote `find` enumeration runs with a
120-second timeout, not a 30-second one (and the remote single-file read
runs with `STALE_MINUTES * 60` seconds, 600 at the default 10, not 120). -/
theorem ssh_timeout_claim_false :
    ¬((scan_find "user" "host" "/data").timeout_s = 30 ∧
      (ssh_read_file "user" "host" "/data/a.pdf" 10).timeout_s = 120) := by
  decide

/-- C9 (amended): the generic remote command helper — and with it the
`find` directory enumerations — uses a 120-second timeout; the
single-file write uses 120 seconds and its preparatory `mkdir -p` 30
seconds; the single-file read uses `stale_minutes * 60` seconds, which
is 600 seconds at the default `stale_minutes = 10`. -/
theorem ssh_timeouts (user host root dir path cmd : String) (m : Nat) :
    (ssh_cmd user host cmd).timeout_s = 120 ∧
    (scan_find user host root).timeout_s = 120 ∧
    (ssh_read_file user host path m).timeout_s = (m : ℚ) * 60 ∧
    (ssh_write_file user host dir path).1.timeout_s = 30 ∧
    (ssh_write_file user host dir path).2.timeout_s = 120 ∧
    (ssh_read_file user host path 10).timeout_s = 600 := by
  refine ⟨rfl, rfl, rfl, rfl, rfl, ?_⟩
  norm_num [ssh_read_file]

/-! ## C2: concurrent pulls can overlap -/

/-- C2: `pull_tasks` runs its SELECT and UPDATE as two separate
statements, so under the schedule A.select, B.select, A.update, B.update
over a single pending task both calls select — and hence return — task
id 1: the returned id sets are not disjoint, and the second UPDATE
silently reassigns the row. -/
theorem pull_race_overlap :
    (pullSelect [mkPendingTask 1 "/pdfs/a.pdf" "/out/a.txt"] 1).map (·.id) = [1] ∧
    (pullUpdate
        (pullUpdate [mkPendingTask 1 "/pdfs/a.pdf" "/out/a.txt"]
          ((pullSelect [mkPendingTask 1 "/pdfs/a.pdf" "/out/a.txt"] 1).map (·.id))
          "w1" 5)
        ((pullSelect [mkPendingTask 1 "/pdfs/a.pdf" "/out/a.txt"] 1).map (·.id))
        "w2" 6).map (fun t => (t.id, t.status, t.worker)) =
      [(1, "assigned", some "w2")] := by
  decide

/-! ## C4: recover_stale -/

/-- C4: `recover_stale(minutes)` resets exactly the rows that are
`assigned` with `assigned_at` strictly before `now - minutes*60` to
`pending` with `worker` and `assigned_at` cleared, leaves every other
row untouched, returns the number of rows so changed, and afterwards no
row is `assigned` with an `assigned_at` before the cutoff. -/
theorem recover_stale_correct (tasks : List Task) (minutes now : ℚ) :
    ((recover_stale tasks minutes now).2 =
        (tasks.filter (isStale (now - minutes * 60))).length ∧
      ∀ t : Task, isStale (now - minutes * 60) t = true ↔
        t.status = "assigned" ∧ ∃ a, t.assigned_at = some a ∧
          a < now - minutes * 60) ∧
    (∀ t ∈ tasks,
      t.status = "assigned" → ∀ a, t.assigned_at = some a →
        a < now - minutes * 60 →
      { t with status := "pending", worker := none, assigned_at := none }
        ∈ (recover_stale tasks minutes now).1) ∧
    (∀ t ∈ tasks,
      ¬(t.status = "assigned" ∧ ∃ a, t.assigned_at = some a ∧
          a < now - minutes * 60) →
      t ∈ (recover_stale tasks minutes now).1) ∧
    (∀ t ∈ (recover_stale tasks minutes now).1, t.status = "assigned" →
      ∀ a, t.assigned_at = some a → ¬(a < now - minutes * 60)) := by
  set c := now - minutes * 60 with hc
  refine ⟨?_, ?_, ?_, ?_⟩
  · exact ⟨rfl, fun t => isStale_iff c t⟩
  · intro t ht hs a ha hlt
    have hst : isStale c t = true := (isStale_iff c t).2 ⟨hs, a, ha, hlt⟩
    have := List.mem_map_of_mem
      (fun t => if isStale c t then
        { t with status := "pending", worker := none, assigned_at := none } else t) ht
    simpa [recover_stale, ← hc, hst] using this
  · intro t ht hn
    have hst : isStale c t = false := by
      cases h : isStale c t
      · rfl
      · exact absurd ((isStale_iff c t).1 h) hn
    have := List.mem_map_of_mem
      (fun t => if isStale c t then
        { t with status := "pending", worker := none, assigned_at := none } else t) ht
    simpa [recover_stale, ← hc, hst] using this
  · intro t ht hs a ha hlt
    obtain ⟨u, _, rfl⟩ := List.mem_map.1 ht
    by_cases hu : isStale c u = true
    · simp [hu] at hs
    · rw [if_neg hu] at hs ha
      exact hu ((isStale_iff c u).2 ⟨hs, a, ha, hlt⟩)

/-! ## C10: re-registering an existing worker -/

/-- C10: when `name` is already present, `register_worker` rewrites only
`ip`, `cores` and `last_seen` on that row — counters and telemetry are
carried over — leaves every other row as it was, and neither adds nor
removes rows. -/
theorem register_worker_existing (ws : List WorkerRow) (name ip : String)
    (cores : Int) (now : ℚ) (hex : ∃ w ∈ ws, w.name = name) :
    ((register_worker ws name ip cores now).length = ws.length) ∧
    (∀ w ∈ ws, w.name = name →
      ∃ u ∈ register_worker ws name ip cores now,
        u.name = w.name ∧ u.ip = ip ∧ u.cores = cores ∧ u.last_seen = now ∧
        u.tasks_completed = w.tasks_completed ∧ u.tasks_failed = w.tasks_failed ∧
        u.cpu_pct = w.cpu_pct ∧ u.ram_used_gb = w.ram_used_gb ∧
        u.ram_total_gb = w.ram_total_gb ∧ u.gpu_pct = w.gpu_pct ∧
        u.gpu_temp = w.gpu_temp ∧ u.cpu_temp = w.cpu_temp) ∧
    (∀ w ∈ ws, w.name ≠ name → w ∈ register_worker ws name ip cores now) := by
  obtain ⟨w0, hw0, hname0⟩ := hex
  have hany : ws.any (fun w => w.name == name) = true :=
    List.any_eq_true.2 ⟨w0, hw0, by simpa using hname0⟩
  rw [register_worker, if_pos hany]
  refine ⟨List.length_map _ _, ?_, ?_⟩
  · intro w hw hn
    refine ⟨{ w with ip := ip, cores := cores, last_seen := now }, ?_, by simp [hn]⟩
    have := List.mem_map_of_mem
      (fun w => if w.name = name
        then { w with ip := ip, cores := cores, last_seen := now } else w) hw
    simpa [hn] using this
  · intro w hw hn
    have := List.mem_map_of_mem
      (fun w => if w.name = name
        then { w with ip := ip, cores := cores, last_seen := now } else w) hw
    simpa [hn] using this

/-- C10 witness: a two-row workers table re-registering "alpha". -/
theorem register_worker_existing_witness :
    ((register_worker
        [⟨"alpha", "10.0.0.1", 4, 100, 7, 2, 50, 8, 16, none, none, some 40⟩,
         ⟨"beta", "10.0.0.2", 8, 90, 3, 1, 10, 4, 32, some 60, some 70, none⟩]
        "alpha" "10.0.0.9" 6 200).length = 2) ∧
    (∀ w ∈ ([⟨"alpha", "10.0.0.1", 4, 100, 7, 2, 50, 8, 16, none, none, some 40⟩,
         ⟨"beta", "10.0.0.2", 8, 90, 3, 1, 10, 4, 32, some 60, some 70, none⟩] :
           List WorkerRow), w.name = "alpha" →
      ∃ u ∈ register_worker
        [⟨"alpha", "10.0.0.1", 4, 100, 7, 2, 50, 8, 16, none, none, some 40⟩,
         ⟨"beta", "10.0.0.2", 8, 90, 3, 1, 10, 4, 32, some 60, some 70, none⟩]
        "alpha" "10.0.0.9" 6 200,
        u.name = w.name ∧ u.ip = "10.0.0.9" ∧ u.cores = 6 ∧ u.last_seen = 200 ∧
        u.tasks_completed = w.tasks_completed ∧ u.tasks_failed = w.tasks_failed ∧
        u.cpu_pct = w.cpu_pct ∧ u.ram_used_gb = w.ram_used_gb ∧
        u.ram_total_gb = w.ram_total_gb ∧ u.gpu_pct = w.gpu_pct ∧
        u.gpu_temp = w.gpu_temp ∧ u.cpu_temp = w.cpu_temp) ∧
    (∀ w ∈ ([⟨"alpha", "10.0.0.1", 4, 100, 7, 2, 50, 8, 16, none, none, some 40⟩,
         ⟨"beta", "10.0.0.2", 8, 90, 3, 1, 10, 4, 32, some 60, some 70, none⟩] :
           List WorkerRow), w.name ≠ "alpha" →
      w ∈ register_worker
        [⟨"alpha", "10.0.0.1", 4, 100, 7, 2, 50, 8, 16, none, none, some 40⟩,
         ⟨"beta", "10.0.0.2", 8, 90, 3, 1, 10, 4, 32, some 60, some 70, none⟩]
        "alpha" "10.0.0.9" 6 200) :=
  register_worker_existing _ "alpha" "10.0.0.9" 6 200
    ⟨⟨"alpha", "10.0.0.1", 4, 100, 7, 2, 50, 8, 16, none, none, some 40⟩,
     by simp, rfl⟩

/-! ## C5: add_tasks is idempotent on pdf_path -/

theorem any_path_iff (ts : List Task) (p : String) :
    ts.any (fun t => t.pdf_path == p) = true ↔ ∃ t ∈ ts, t.pdf_path = p := by
  simp [List.any_eq_true]

theorem add_foldl_shift (pairs : List (String × String)) :
    ∀ (ts : List Task) (n : Nat),
      pairs.foldl addStep (ts, n) =
        ((pairs.foldl addStep (ts, 0)).1, n + (pairs.foldl addStep (ts, 0)).2) := by
  induction pairs with
  | nil => intro ts n; simp
  | cons pr rest ih =>
      intro ts n
      by_cases h : ts.any (fun t => t.pdf_path == pr.1) = true
      · simp only [List.foldl_cons, addStep, h, if_pos]
        exact ih ts n
      · simp only [List.foldl_cons, addStep, h, if_neg, Bool.not_eq_true]
        rw [ih _ (n + 1), ih _ 1]
        simp [Prod.ext_iff]
        omega

theorem add_foldl_prefix (pairs : List (String × String)) :
    ∀ (ts : List Task) (n : Nat),
      ∃ ext, (pairs.foldl addStep (ts, n)).1 = ts ++ ext := by
  induction pairs with
  | nil => intro ts n; exact ⟨[], by simp⟩
  | cons pr rest ih =>
      intro ts n
      by_cases h : ts.any (fun t => t.pdf_path == pr.1) = true
      · simpa [addStep, h] using ih ts n
      · obtain ⟨ext, hext⟩ := ih (ts ++ [mkPendingTask (nextId ts) pr.1 pr.2]) (n + 1)
        exact ⟨[mkPendingTask (nextId ts) pr.1 pr.2] ++ ext,
          by simp [addStep, h, hext]⟩

theorem add_foldl_skip (pairs : List (String × String)) :
    ∀ (ts : List Task) (n : Nat),
      (∀ pr ∈ pairs, ∃ t ∈ ts, t.pdf_path = pr.1) →
      pairs.foldl addStep (ts, n) = (ts, n) := by
  induction pairs with
  | nil => intro ts n _; rfl
  | cons pr rest ih =>
      intro ts n hall
      have h : ts.any (fun t => t.pdf_path == pr.1) = true :=
        (any_path_iff ts pr.1).2 (hall pr (by simp))
      simp only [List.foldl_cons, addStep, h, if_pos]
      exact ih ts n (fun q hq => hall q (by simp [hq]))

/-- C5: on a pair list whose input paths are distinct and absent from
the table, `add_tasks` inserts all pairs and returns their count; run
again on the same list it inserts nothing, returns 0 and leaves the
table unchanged; and in general a pair whose `pdf_path` is already in
the table is skipped and not counted. -/
theorem add_tasks_idempotent (tasks : List Task) (pairs : List (String × String))
    (hdist : (pairs.map Prod.fst).Nodup)
    (hnew : ∀ pr ∈ pairs, ∀ t ∈ tasks, t.pdf_path ≠ pr.1) :
    ((add_tasks tasks pairs).2 = pairs.length) ∧
    (∀ pr ∈ pairs, ∃ t ∈ (add_tasks tasks pairs).1,
        t.pdf_path = pr.1 ∧ t.text_path = pr.2 ∧ t.status = "pending") ∧
    (add_tasks (add_tasks tasks pairs).1 pairs = ((add_tasks tasks pairs).1, 0)) ∧
    (∀ ts : List Task, ∀ q : String × String, ∀ rest : List (String × String),
        (∃ t ∈ ts, t.pdf_path = q.1) →
        add_tasks ts (q :: rest) = add_tasks ts rest) := by
  have key : ∀ (ps : List (String × String)) (ts : List Task),
      (ps.map Prod.fst).Nodup →
      (∀ pr ∈ ps, ∀ t ∈ ts, t.pdf_path ≠ pr.1) →
      (ps.foldl addStep (ts, 0)).2 = ps.length ∧
      (∀ pr ∈ ps, ∃ t ∈ (ps.foldl addStep (ts, 0)).1,
        t.pdf_path = pr.1 ∧ t.text_path = pr.2 ∧ t.status = "pending") := by
    intro ps
    induction ps with
    | nil => intro ts _ _; simp
    | cons pr rest ih =>
        intro ts hnodup habs
        rw [List.map_cons, List.nodup_cons] at hnodup
        have hany : ts.any (fun t => t.pdf_path == pr.1) = false := by
          cases h : ts.any (fun t => t.pdf_path == pr.1)
          · rfl
          · obtain ⟨t, ht, hp⟩ := (any_path_iff ts pr.1).1 h
            exact absurd hp (habs pr (by simp) t ht)
        have hstep : addStep (ts, 0) pr =
            (ts ++ [mkPendingTask (nextId ts) pr.1 pr.2], 1) := by
          simp [addStep, hany]
        set ts' := ts ++ [mkPendingTask (nextId ts) pr.1 pr.2] with hts'
        have habs' : ∀ q ∈ rest, ∀ t ∈ ts', t.pdf_path ≠ q.1 := by
          intro q hq t ht
          rcases List.mem_append.1 ht with h1 | h1
          · exact habs q (by simp [hq]) t h1
          · have : t = mkPendingTask (nextId ts) pr.1 pr.2 := by simpa using h1
            subst this
            show pr.1 ≠ q.1
            intro hcontra
            exact hnodup.1 (by rw [hcontra]; exact List.mem_map_of_mem _ hq)
        have hnodup' : (rest.map Prod.fst).Nodup := hnodup.2
        obtain ⟨ihc, ihm⟩ := ih ts' hnodup' habs'
        constructor
        · show (List.foldl addStep (addStep (ts, 0) pr) rest).2 = rest.length + 1
          rw [hstep, add_foldl_shift rest ts' 1, ihc]
          omega
        · intro q hq
          rcases List.mem_cons.1 hq with rfl | hq'
          · obtain ⟨ext, hext⟩ := add_foldl_prefix rest ts' 1
            refine ⟨mkPendingTask (nextId ts) q.1 q.2, ?_, rfl, rfl, rfl⟩
            show _ ∈ (List.foldl addStep (addStep (ts, 0) q) rest).1
            rw [hstep, hext]
            simp [hts']
          · obtain ⟨t, htm, hfields⟩ := ihm q hq'
            refine ⟨t, ?_, hfields⟩
            show t ∈ (List.foldl addStep (addStep (ts, 0) pr) rest).1
            rw [hstep, add_foldl_shift rest ts' 1]
            simpa using htm
  obtain ⟨hcount, hmem⟩ := key pairs tasks hdist hnew
  refine ⟨hcount, hmem, ?_, ?_⟩
  · exact add_foldl_skip pairs _ 0 (fun pr hpr => by
      obtain ⟨t, ht, h1, _, _⟩ := hmem pr hpr
      exact ⟨t, ht, h1⟩)
  · intro ts q rest hex
    have h : ts.any (fun t => t.pdf_path == q.1) = true := (any_path_iff ts q.1).2 hex
    show (q :: rest).foldl addStep (ts, 0) = rest.foldl addStep (ts, 0)
    simp only [List.foldl_cons, addStep, h, if_pos]

/-- C5 witness: two fresh pairs into an empty table. -/
theorem add_tasks_idempotent_witness :
    ((add_tasks [] [("/pdfs/a.pdf", "/out/a.txt"), ("/pdfs/b.pdf", "/out/b.txt")]).2
        = 2) ∧
    (∀ pr ∈ [("/pdfs/a.pdf", "/out/a.txt"), ("/pdfs/b.pdf", "/out/b.txt")],
      ∃ t ∈ (add_tasks []
          [("/pdfs/a.pdf", "/out/a.txt"), ("/pdfs/b.pdf", "/out/b.txt")]).1,
        t.pdf_path = pr.1 ∧ t.text_path = pr.2 ∧ t.status = "pending") ∧
    (add_tasks
        (add_tasks []
          [("/pdfs/a.pdf", "/out/a.txt"), ("/pdfs/b.pdf", "/out/b.txt")]).1
        [("/pdfs/a.pdf", "/out/a.txt"), ("/pdfs/b.pdf", "/out/b.txt")] =
      ((add_tasks []
          [("/pdfs/a.pdf", "/out/a.txt"), ("/pdfs/b.pdf", "/out/b.txt")]).1, 0)) ∧
    (∀ ts : List Task, ∀ q : String × String, ∀ rest : List (String × String),
        (∃ t ∈ ts, t.pdf_path = q.1) →
        add_tasks ts (q :: rest) = add_tasks ts rest) :=
  add_tasks_idempotent []
    [("/pdfs/a.pdf", "/out/a.txt"), ("/pdfs/b.pdf", "/out/b.txt")]
    (by decide) (by intro pr _ t ht; simp at ht)

/-! ## Lemmas about applying report results -/

theorem applyResultTask_id (now : ℚ) (r : ResultR) (t : Task) :
    (applyResultTask now r t).id = t.id := by
  unfold applyResultTask
  split
  · split <;> rfl
  · rfl

theorem applyResultTask_miss (now : ℚ) (r : ResultR) (t : Task)
    (h : t.id ≠ r.task_id) : applyResultTask now r t = t := by
  unfold applyResultTask
  rw [if_neg h]

theorem applyResults_map_id (now : ℚ) (rs : List ResultR) :
    ∀ ts : List Task, (applyResults now ts rs).map Task.id = ts.map Task.id := by
  induction rs with
  | nil => intro ts; rfl
  | cons r rest ih =>
      intro ts
      show (applyResults now (applyResult now ts r) rest).map Task.id = _
      rw [ih, applyResult, List.map_map]
      exact List.map_congr_left (fun t _ => applyResultTask_id now r t)

theorem applyResults_untouched (now : ℚ) (rs : List ResultR) :
    ∀ (ts : List Task) (u : Task), u ∈ ts → (∀ r ∈ rs, r.task_id ≠ u.id) →
      u ∈ applyResults now ts rs := by
  induction rs with
  | nil => intro ts u hu _; exact hu
  | cons r rest ih =>
      intro ts u hu hmiss
      have h1 : applyResultTask now r u = u :=
        applyResultTask_miss now r u (fun h => hmiss r (by simp) h.symm)
      have : u ∈ applyResult now ts r := h1 ▸ List.mem_map_of_mem _ hu
      exact ih _ u this (fun r' hr' => hmiss r' (by simp [hr']))

theorem applyResult_all_miss (now : ℚ) (r : ResultR) (ts : List Task)
    (h : ∀ t ∈ ts, t.id ≠ r.task_id) : applyResult now ts r = ts := by
  rw [applyResult]
  rw [List.map_congr_left (fun t ht => applyResultTask_miss now r t (h t ht))]
  exact List.map_id ts

theorem applyResults_mem (now : ℚ) (rs : List ResultR) :
    ∀ (ts : List Task) (r : ResultR), r ∈ rs →
      (rs.map ResultR.task_id).Nodup →
      ∀ t ∈ ts, t.id = r.task_id →
        applyResultTask now r t ∈ applyResults now ts rs := by
  induction rs with
  | nil => intro ts r hr; exact absurd hr (List.not_mem_nil r)
  | cons r0 rest ih =>
      intro ts r hr hnodup t ht hid
      rw [List.map_cons, List.nodup_cons] at hnodup
      rcases List.mem_cons.1 hr with rfl | hr'
      · have hmem : applyResultTask now r t ∈ applyResult now ts r :=
          List.mem_map_of_mem _ ht
        refine applyResults_untouched now rest _ _ hmem ?_
        intro r' hr' hcontra
        rw [applyResultTask_id now r t, hid] at hcontra
        exact hnodup.1 (hcontra ▸ List.mem_map_of_mem _ hr')
      · have hne : r.task_id ≠ r0.task_id := by
          intro hcontra
          exact hnodup.1 (hcontra ▸ List.mem_map_of_mem _ hr')
        have h1 : applyResultTask now r0 t = t :=
          applyResultTask_miss now r0 t (by rw [hid]; exact hne)
        have : t ∈ applyResult now ts r0 := h1 ▸ List.mem_map_of_mem _ ht
        exact ih _ r hr' hnodup.2 t this hid

theorem lastWorkerName_of_const (w : String) :
    ∀ rs : List ResultR, rs ≠ [] → (∀ r ∈ rs, r.worker = some w) →
      lastWorkerName rs = some w := by
  have aux : ∀ rs : List ResultR, (∀ r ∈ rs, r.worker = some w) →
      rs.foldl (fun acc r => match r.worker with | some v => some v | none => acc)
        (some w) = some w := by
    intro rs
    induction rs with
    | nil => intro _; rfl
    | cons r rest ih =>
        intro hall
        have h1 : r.worker = some w := hall r (by simp)
        show List.foldl _ (match r.worker with | some v => some v | none => some w)
          rest = some w
        rw [h1]
        exact ih (fun r' hr' => hall r' (by simp [hr']))
  intro rs hne hall
  cases rs with
  | nil => exact absurd rfl hne
  | cons r rest =>
      have h1 : r.worker = some w := hall r (by simp)
      show List.foldl _ (match r.worker with | some v => some v | none => none)
        rest = some w
      rw [h1]
      exact aux rest (fun r' hr' => hall r' (by simp [hr']))

/-! ## C7: a result with a missing task_id -/

def exWorkerRow : WorkerRow :=
  ⟨"w", "10.0.0.1", 4, 0, 0, 0, 0, 0, 0, none, none, none⟩

/-- C7 counterexample: with no task 999 in the table, reporting
`{task_id := 999, status := "done", worker := "w"}` is *not* equivalent
to dropping the result: the worker row's `tasks_completed` is still
incremented (1 versus 0) and its `last_seen` still rewritten. -/
theorem report_missing_id_claim_false :
    report_results ⟨[], [exWorkerRow]⟩
        [⟨999, "done", none, none, none, some "w"⟩] 7 ≠
      report_results ⟨[], [exWorkerRow]⟩ [] 7 := by
  decide

/-- C7 (amended): a result whose `task_id` matches no row leaves the
tasks table exactly as the batch without it would and raises no error,
but it still counts toward the batch's done/failed totals — and hence
toward the reporting worker's counter increments. -/
theorem report_missing_id_noop (st : DBState) (res₁ res₂ : List ResultR)
    (r : ResultR) (now : ℚ) (hmiss : ∀ t ∈ st.tasks, t.id ≠ r.task_id) :
    ((report_results st (res₁ ++ r :: res₂) now).tasks =
      (report_results st (res₁ ++ res₂) now).tasks) ∧
    (doneCount (res₁ ++ r :: res₂) =
      doneCount (res₁ ++ res₂) + (if r.status = "done" then 1 else 0)) ∧
    (failCount (res₁ ++ r :: res₂) =
      failCount (res₁ ++ res₂) + (if r.status = "done" then 0 else 1)) := by
  refine ⟨?_, ?_, ?_⟩
  · show applyResults now st.tasks (res₁ ++ r :: res₂) =
      applyResults now st.tasks (res₁ ++ res₂)
    rw [applyResults, applyResults, List.foldl_append, List.foldl_append,
      List.foldl_cons]
    congr 1
    apply applyResult_all_miss
    intro t ht
    have hids : (applyResults now st.tasks res₁).map Task.id =
        st.tasks.map Task.id := applyResults_map_id now res₁ st.tasks
    have : t.id ∈ st.tasks.map Task.id := by
      rw [← hids]
      exact List.mem_map_of_mem _ ht
    obtain ⟨u, hu, huid⟩ := List.mem_map.1 this
    exact huid ▸ hmiss u hu
  · by_cases h : r.status = "done" <;>
      (simp [doneCount, List.filter_append, h]; try omega)
  · by_cases h : r.status = "done" <;>
      (simp [failCount, List.filter_append, h]; try omega)

/-- C7 witness: one pending task with id 1, one reported result for the
absent id 999. -/
theorem report_missing_id_noop_witness :
    ((report_results ⟨[mkPendingTask 1 "/pdfs/a.pdf" "/out/a.txt"], [exWorkerRow]⟩
        ([] ++ (⟨999, "done", none, none, none, some "w"⟩ : ResultR) :: []) 7).tasks =
      (report_results ⟨[mkPendingTask 1 "/pdfs/a.pdf" "/out/a.txt"], [exWorkerRow]⟩
        ([] ++ []) 7).tasks) ∧
    (doneCount ([] ++ (⟨999, "done", none, none, none, some "w"⟩ : ResultR) :: []) =
      doneCount ([] ++ []) +
        (if (⟨999, "done", none, none, none, some "w"⟩ : ResultR).status = "done"
         then 1 else 0)) ∧
    (failCount ([] ++ (⟨999, "done", none, none, none, some "w"⟩ : ResultR) :: []) =
      failCount ([] ++ []) +
        (if (⟨999, "done", none, none, none, some "w"⟩ : ResultR).status = "done"
         then 0 else 1)) :=
  report_missing_id_noop
    ⟨[mkPendingTask 1 "/pdfs/a.pdf" "/out/a.txt"], [exWorkerRow]⟩ [] []
    ⟨999, "done", none, none, none, some "w"⟩ 7 (by decide)

/-! ## C6: report batch effects -/

/-- C6: for a batch of results with pairwise-distinct task ids, all
annotated with the reporting worker `w` (a non-empty name): each done
result rewrites its task row to `done` with `completed_at = now`, the
reported method and char_count and a cleared error; every other result
rewrites its row to `failed` with `completed_at = now`, the reported
error (default "unknown") and method; and the worker row named `w` has
`tasks_completed`/`tasks_failed` incremented by the number of done and
non-done results and `last_seen` set to `now`. -/
theorem report_results_correct (st : DBState) (results : List ResultR)
    (w : String) (now : ℚ)
    (hw : ∀ r ∈ results, r.worker = some w) (hwne : w ≠ "")
    (hne : results ≠ [])
    (hnodup : (results.map ResultR.task_id).Nodup) :
    (∀ r ∈ results, r.status = "done" → ∀ t ∈ st.tasks, t.id = r.task_id →
      { t with status := "done", completed_at := some now, method := r.method,
               char_count := r.char_count, error := none }
        ∈ (report_results st results now).tasks) ∧
    (∀ r ∈ results, r.status ≠ "done" → ∀ t ∈ st.tasks, t.id = r.task_id →
      { t with status := "failed", completed_at := some now,
               error := some (r.error.getD "unknown"), method := r.method }
        ∈ (report_results st results now).tasks) ∧
    (∀ u ∈ st.workers, u.name = w →
      { u with tasks_completed := u.tasks_completed + doneCount results,
               tasks_failed := u.tasks_failed + failCount results,
               last_seen := now }
        ∈ (report_results st results now).workers) := by
  have hlast : lastWorkerName results = some w :=
    lastWorkerName_of_const w results hne hw
  refine ⟨?_, ?_, ?_⟩
  · intro r hr hdone t ht hid
    have := applyResults_mem now results st.tasks r hr hnodup t ht hid
    rwa [applyResultTask, if_pos hid, if_pos hdone] at this
  · intro r hr hfail t ht hid
    have := applyResults_mem now results st.tasks r hr hnodup t ht hid
    rwa [applyResultTask, if_pos hid, if_neg hfail] at this
  · intro u hu hname
    show _ ∈ (match lastWorkerName results with
      | some w =>
          if w = "" then st.workers
          else updateWorkerCounts st.workers w (doneCount results)
            (failCount results) now
      | none => st.workers)
    rw [hlast]
    simp only [if_neg hwne]
    have := List.mem_map_of_mem
      (fun u => if u.name = w then
        { u with tasks_completed := u.tasks_completed + (doneCount results : Int),
                 tasks_failed := u.tasks_failed + (failCount results : Int),
                 last_seen := now }
        else u) hu
    simpa [updateWorkerCounts, hname] using this

/-- C6 witness: a two-task table, one done and one failed result from
worker "w". -/
theorem report_results_correct_witness :
    ((∀ r ∈ ([⟨1, "done", some "pdftotext", some 500, none, some "w"⟩,
              ⟨2, "error", some "ocr", none, some "boom", some "w"⟩] :
                List ResultR), r.status = "done" →
      ∀ t ∈ (⟨[mkPendingTask 1 "/pdfs/a.pdf" "/out/a.txt",
               mkPendingTask 2 "/pdfs/b.pdf" "/out/b.txt"], [exWorkerRow]⟩ :
                 DBState).tasks, t.id = r.task_id →
      { t with status := "done", completed_at := some 7, method := r.method,
               char_count := r.char_count, error := none }
        ∈ (report_results
            ⟨[mkPendingTask 1 "/pdfs/a.pdf" "/out/a.txt",
              mkPendingTask 2 "/pdfs/b.pdf" "/out/b.txt"], [exWorkerRow]⟩
            [⟨1, "done", some "pdftotext", some 500, none, some "w"⟩,
             ⟨2, "error", some "ocr", none, some "boom", some "w"⟩] 7).tasks) ∧
    (∀ r ∈ ([⟨1, "done", some "pdftotext", some 500, none, some "w"⟩,
             ⟨2, "error", some "ocr", none, some "boom", some "w"⟩] :
               List ResultR), r.status ≠ "done" →
      ∀ t ∈ (⟨[mkPendingTask 1 "/pdfs/a.pdf" "/out/a.txt",
               mkPendingTask 2 "/pdfs/b.pdf" "/out/b.txt"], [exWorkerRow]⟩ :
                 DBState).tasks, t.id = r.task_id →
      { t with status := "failed", completed_at := some 7,
               error := some (r.error.getD "unknown"), method := r.method }
        ∈ (report_results
            ⟨[mkPendingTask 1 "/pdfs/a.pdf" "/out/a.txt",
              mkPendingTask 2 "/pdfs/b.pdf" "/out/b.txt"], [exWorkerRow]⟩
            [⟨1, "done", some "pdftotext", some 500, none, some "w"⟩,
             ⟨2, "error", some "ocr", none, some "boom", some "w"⟩] 7).tasks) ∧
    (∀ u ∈ (⟨[mkPendingTask 1 "/pdfs/a.pdf" "/out/a.txt",
              mkPendingTask 2 "/pdfs/b.pdf" "/out/b.txt"], [exWorkerRow]⟩ :
                DBState).workers, u.name = "w" →
      { u with tasks_completed := u.tasks_completed +
                 doneCount [⟨1, "done", some "pdftotext", some 500, none, some "w"⟩,
                            ⟨2, "error", some "ocr", none, some "boom", some "w"⟩],
               tasks_failed := u.tasks_failed +
                 failCount [⟨1, "done", some "pdftotext", some 500, none, some "w"⟩,
                            ⟨2, "error", some "ocr", none, some "boom", some "w"⟩],
               last_seen := 7 }
        ∈ (report_results
            ⟨[mkPendingTask 1 "/pdfs/a.pdf" "/out/a.txt",
              mkPendingTask 2 "/pdfs/b.pdf" "/out/b.txt"], [exWorkerRow]⟩
            [⟨1, "done", some "pdftotext", some 500, none, some "w"⟩,
             ⟨2, "error", some "ocr", none, some "boom", some "w"⟩] 7).workers)) :=
  report_results_correct
    ⟨[mkPendingTask 1 "/pdfs/a.pdf" "/out/a.txt",
      mkPendingTask 2 "/pdfs/b.pdf" "/out/b.txt"], [exWorkerRow]⟩
    [⟨1, "done", some "pdftotext", some 500, none, some "w"⟩,
     ⟨2, "error", some "ocr", none, some "boom", some "w"⟩]
    "w" 7 (by decide) (by decide) (by decide) (by decide)

/-! ## C1: pull_tasks assigns the lowest-id pending tasks -/

/-- C1: with the table in ascending-id order, `pull_tasks(worker, n)`
returns at most `n` triples — exactly the first `n` pending rows, in
ascending id order, every other pending row having a larger id than all
returned ones; in the new table every returned id is `assigned` to
`worker` with `assigned_at = now`, rows whose id was not returned are
unchanged, and with no pending row the call returns `[]` and changes
nothing. -/
theorem pull_tasks_correct (tasks : List Task) (w : String) (n : Nat) (now : ℚ)
    (hsorted : tasks.Pairwise (fun a b => a.id < b.id)) :
    ((pull_tasks tasks w n now).2.length ≤ n) ∧
    ((pull_tasks tasks w n now).2 =
      ((tasks.filter (fun t => t.status == "pending")).take n).map
        (fun t => (t.id, t.pdf_path, t.text_path))) ∧
    (((pull_tasks tasks w n now).2.map Prod.fst).Pairwise (· < ·)) ∧
    (∀ t ∈ tasks, t.status = "pending" →
      t.id ∉ (pull_tasks tasks w n now).2.map Prod.fst →
      ∀ i ∈ (pull_tasks tasks w n now).2.map Prod.fst, i < t.id) ∧
    (∀ t ∈ (pull_tasks tasks w n now).1,
      t.id ∈ (pull_tasks tasks w n now).2.map Prod.fst →
      t.status = "assigned" ∧ t.worker = some w ∧ t.assigned_at = some now) ∧
    (∀ t ∈ tasks, t.id ∉ (pull_tasks tasks w n now).2.map Prod.fst →
      t ∈ (pull_tasks tasks w n now).1) ∧
    (tasks.filter (fun t => t.status == "pending") = [] →
      (pull_tasks tasks w n now).2 = [] ∧ (pull_tasks tasks w n now).1 = tasks) := by
  set P := tasks.filter (fun t => t.status == "pending") with hP
  set rows := P.take n with hrows
  have hres : (pull_tasks tasks w n now).2 =
      rows.map (fun t => (t.id, t.pdf_path, t.text_path)) := by
    rw [pull_tasks]
    by_cases h : (pullSelect tasks n).isEmpty
    · have : pullSelect tasks n = [] := List.isEmpty_iff.1 h
      simp only [h, if_pos]
      rw [show rows = pullSelect tasks n from rfl, this]
      rfl
    · simp only [h, if_neg, Bool.not_eq_true]
      rfl
  have hids : (pull_tasks tasks w n now).2.map Prod.fst = rows.map (·.id) := by
    rw [hres, List.map_map]
    rfl
  have hPfil : P.Pairwise (fun a b => a.id < b.id) := hsorted.filter _
  have hrowsPW : rows.Pairwise (fun a b => a.id < b.id) :=
    List.Pairwise.sublist (List.take_sublist n P) hPfil
  refine ⟨?_, hres, ?_, ?_, ?_, ?_, ?_⟩
  · rw [hres, List.length_map]
    exact le_trans (List.length_take_le n P) (le_refl n)
  · rw [hids, List.pairwise_map]
    exact hrowsPW
  · intro t ht hpend hnot i hi
    rw [hids] at hnot hi
    have htP : t ∈ P := List.mem_filter.2 ⟨ht, by simp [hpend]⟩
    have hsplit := List.take_append_drop n P
    have hcross := (List.pairwise_append.1 (by rw [hsplit]; exact hPfil)).2.2
    have htdrop : t ∈ P.drop n := by
      rcases List.mem_append.1 (by rw [hsplit]; exact htP) with h1 | h1
      · exact absurd (List.mem_map_of_mem (·.id) h1) hnot
      · exact h1
    obtain ⟨u, hu, rfl⟩ := List.mem_map.1 hi
    exact hcross u hu t htdrop
  · intro t ht hid
    rw [pull_tasks] at ht
    by_cases h : (pullSelect tasks n).isEmpty
    · rw [hids] at hid
      have : pullSelect tasks n = [] := List.isEmpty_iff.1 h
      rw [show rows = pullSelect tasks n from rfl, this] at hid
      simp at hid
    · simp only [h, if_neg, Bool.not_eq_true] at ht
      obtain ⟨u, hu, rfl⟩ := List.mem_map.1 ht
      rw [hids] at hid
      have hfid : ∀ v : Task,
          ((if v.id ∈ (pullSelect tasks n).map (·.id) then
            { v with status := "assigned", worker := some w,
                     assigned_at := some now } else v) : Task).id = v.id := by
        intro v; split <;> rfl
      rw [hfid u] at hid
      have hmem : u.id ∈ (pullSelect tasks n).map (·.id) := hid
      simp only [hmem, if_pos]
      exact ⟨trivial, trivial, trivial⟩
  · intro t ht hid
    rw [pull_tasks]
    by_cases h : (pullSelect tasks n).isEmpty
    · simpa [h] using ht
    · simp only [h, if_neg, Bool.not_eq_true]
      rw [hids] at hid
      have : (if t.id ∈ (pullSelect tasks n).map (·.id) then
          ({ t with status := "assigned", worker := some w,
                    assigned_at := some now } : Task) else t) = t := if_neg hid
      exact this ▸ List.mem_map_of_mem _ ht
  · intro hempty
    have h : (pullSelect tasks n).isEmpty = true := by
      show ((tasks.filter (fun t => t.status == "pending")).take n).isEmpty = true
      rw [← hP, hempty]
      simp
    constructor
    · rw [pull_tasks]
      simp only [h, if_pos]
    · rw [pull_tasks]
      simp only [h, if_pos]

/-- C1 witness: a three-row table with pending ids 1 and 3 and a done
id 2, pulled with batch size 5. -/
theorem pull_tasks_correct_witness :
    (([mkPendingTask 1 "/pdfs/a.pdf" "/out/a.txt",
       { mkPendingTask 2 "/pdfs/b.pdf" "/out/b.txt" with status := "done" },
       mkPendingTask 3 "/pdfs/c.pdf" "/out/c.txt"] :
        List Task).Pairwise (fun a b => a.id < b.id)) ∧
    ((pull_tasks
        [mkPendingTask 1 "/pdfs/a.pdf" "/out/a.txt",
         { mkPendingTask 2 "/pdfs/b.pdf" "/out/b.txt" with status := "done" },
         mkPendingTask 3 "/pdfs/c.pdf" "/out/c.txt"] "w1" 5 5).2 =
      List.map (fun t : Task => (t.id, t.pdf_path, t.text_path))
        (List.take 5
          (List.filter (fun t => t.status == "pending")
            [mkPendingTask 1 "/pdfs/a.pdf" "/out/a.txt",
             { mkPendingTask 2 "/pdfs/b.pdf" "/out/b.txt" with status := "done" },
             mkPendingTask 3 "/pdfs/c.pdf" "/out/c.txt"]))) :=
  ⟨by decide,
   (pull_tasks_correct
     [mkPendingTask 1 "/pdfs/a.pdf" "/out/a.txt",
      { mkPendingTask 2 "/pdfs/b.pdf" "/out/b.txt" with status := "done" },
      mkPendingTask 3 "/pdfs/c.pdf" "/out/c.txt"] "w1" 5 5 (by decide)).2.1⟩

/-! ## C3: the status-transition discipline -/

theorem stepOk_map (f : Task → Task) :
    ∀ ts : List Task,
      (∀ t ∈ ts, t.status = (f t).status ∨
        allowedTransition t.status (f t).status = true) →
      stepOk ts (ts.map f) = true := by
  intro ts
  induction ts with
  | nil => intro _; rfl
  | cons t ts ih =>
      intro h
      have hrest := ih (fun u hu => h u (List.mem_cons_of_mem t hu))
      have ht := h t (List.mem_cons_self t ts)
      simp only [stepOk, List.length_map, beq_self_eq_true, Bool.true_and,
        List.all_eq_true] at hrest
      simp only [stepOk, List.map_cons, List.length_cons, List.length_map,
        beq_self_eq_true, Bool.true_and, List.zip_cons_cons, List.all_cons,
        Bool.and_eq_true, List.all_eq_true]
      refine ⟨?_, fun p hp => hrest p hp⟩
      rcases ht with h1 | h1
      · simp [h1]
      · simp [h1]

theorem stepOk_refl (ts : List Task) : stepOk ts ts = true := by
  have := stepOk_map id ts (fun t _ => Or.inl rfl)
  rwa [List.map_id] at this

theorem pull_step_ok (tasks : List Task) (w : String) (n : Nat) (now : ℚ)
    (hids : (tasks.map Task.id).Nodup) :
    stepOk tasks (pull_tasks tasks w n now).1 = true := by
  rw [pull_tasks]
  by_cases h : (pullSelect tasks n).isEmpty
  · simp only [h, if_pos]
    exact stepOk_refl tasks
  · simp only [h, if_neg, Bool.not_eq_true]
    apply stepOk_map
    intro t ht
    by_cases hmem : t.id ∈ (pullSelect tasks n).map (·.id)
    · obtain ⟨u, hu, huid⟩ := List.mem_map.1 hmem
      have huf : u ∈ tasks.filter (fun t => t.status == "pending") :=
        List.mem_of_mem_take hu
      have hupend : u.status = "pending" := by
        simpa using (List.mem_filter.1 huf).2
      have hut : u = t :=
        List.inj_on_of_nodup_map hids (List.mem_filter.1 huf).1 ht huid
      right
      rw [← hut, hupend]
      show allowedTransition "pending"
        (if u.id ∈ (pullSelect tasks n).map (·.id) then
          ({ u with status := "assigned", worker := some w,
                    assigned_at := some now } : Task) else u).status = true
      rw [if_pos (hut ▸ hmem)]
      show allowedTransition "pending" "assigned" = true
      decide
    · left
      show t.status = (if t.id ∈ (pullSelect tasks n).map (·.id) then _ else t).status
      rw [if_neg hmem]

/-- The cumulative per-row effect of one report batch. -/
def applyTaskFold (now : ℚ) (rs : List ResultR) (t : Task) : Task :=
  rs.foldl (fun x r => applyResultTask now r x) t

theorem applyResults_eq_map (now : ℚ) (rs : List ResultR) :
    ∀ ts : List Task, applyResults now ts rs = ts.map (applyTaskFold now rs) := by
  induction rs with
  | nil =>
      intro ts
      show ts = ts.map (fun t => t)
      rw [List.map_id']
  | cons r rest ih =>
      intro ts
      show applyResults now (applyResult now ts r) rest = _
      rw [ih, applyResult, List.map_map]
      rfl

theorem applyTaskFold_cases (now : ℚ) (rs : List ResultR) :
    ∀ t : Task, (applyTaskFold now rs t).id = t.id ∧
      (applyTaskFold now rs t = t ∨ (applyTaskFold now rs t).status = "done" ∨
        (applyTaskFold now rs t).status = "failed") := by
  induction rs with
  | nil => intro t; exact ⟨rfl, Or.inl rfl⟩
  | cons r rest ih =>
      intro t
      obtain ⟨hid, hcase⟩ := ih (applyResultTask now r t)
      have hid0 : (applyResultTask now r t).id = t.id := applyResultTask_id now r t
      refine ⟨by rw [show applyTaskFold now (r :: rest) t =
        applyTaskFold now rest (applyResultTask now r t) from rfl, hid, hid0], ?_⟩
      show applyTaskFold now rest (applyResultTask now r t) = t ∨
        (applyTaskFold now rest (applyResultTask now r t)).status = "done" ∨
        (applyTaskFold now rest (applyResultTask now r t)).status = "failed"
      rcases hcase with h | h | h
      · rw [h]
        unfold applyResultTask
        by_cases hmatch : t.id = r.task_id
        · rw [if_pos hmatch]
          by_cases hd : r.status = "done"
          · rw [if_pos hd]; right; left; rfl
          · rw [if_neg hd]; right; right; rfl
        · rw [if_neg hmatch]; left; rfl
      · right; left; exact h
      · right; right; exact h

theorem applyTaskFold_miss (now : ℚ) (rs : List ResultR) :
    ∀ t : Task, (∀ r ∈ rs, r.task_id ≠ t.id) → applyTaskFold now rs t = t := by
  induction rs with
  | nil => intro t _; rfl
  | cons r rest ih =>
      intro t h
      show applyTaskFold now rest (applyResultTask now r t) = t
      rw [applyResultTask_miss now r t (fun hc => h r (by simp) hc.symm)]
      exact ih t (fun r' hr' => h r' (by simp [hr']))

theorem report_step_ok (tasks : List Task) (rs : List ResultR) (now : ℚ)
    (h : ∀ r ∈ rs, ∀ t ∈ tasks, t.id = r.task_id → t.status = "assigned") :
    stepOk tasks (applyResults now tasks rs) = true := by
  rw [applyResults_eq_map]
  apply stepOk_map
  intro t ht
  by_cases htarget : ∃ r ∈ rs, r.task_id = t.id
  · obtain ⟨r, hr, hrid⟩ := htarget
    have hassigned : t.status = "assigned" := h r hr t ht hrid.symm
    obtain ⟨_, hcase⟩ := applyTaskFold_cases now rs t
    rcases hcase with h1 | h1 | h1
    · left; rw [h1]
    · right; rw [hassigned, h1]; decide
    · right; rw [hassigned, h1]; decide
  · push_neg at htarget
    left
    rw [applyTaskFold_miss now rs t htarget]

theorem recover_step_ok (tasks : List Task) (m now : ℚ) :
    stepOk tasks (recover_stale tasks m now).1 = true := by
  show stepOk tasks (tasks.map (fun t =>
    if isStale (now - m * 60) t then
      { t with status := "pending", worker := none, assigned_at := none }
    else t)) = true
  apply stepOk_map
  intro t _
  by_cases h : isStale (now - m * 60) t = true
  · right
    have hst : t.status = "assigned" := ((isStale_iff _ t).1 h).1
    rw [hst, if_pos h]
    show allowedTransition "assigned" "pending" = true
    decide
  · left
    rw [if_neg h]

theorem applyOp_map_id (ts : List Task) (op : Op) :
    (applyOp ts op).map Task.id = ts.map Task.id := by
  cases op with
  | pull w n now =>
      show ((pull_tasks ts w n now).1).map Task.id = _
      rw [pull_tasks]
      by_cases h : (pullSelect ts n).isEmpty
      · simp only [h, if_pos]
      · simp only [h, if_neg, Bool.not_eq_true]
        rw [pullUpdate, List.map_map]
        apply List.map_congr_left
        intro t _
        show (if t.id ∈ (pullSelect ts n).map (·.id) then
          ({ t with status := "assigned", worker := some w,
                    assigned_at := some now } : Task) else t).id = t.id
        split <;> rfl
  | report rs now => exact applyResults_map_id now rs ts
  | recover m now =>
      show (ts.map (fun t =>
        if isStale (now - m * 60) t then
          { t with status := "pending", worker := none, assigned_at := none }
        else t)).map Task.id = _
      rw [List.map_map]
      apply List.map_congr_left
      intro t _
      show (if isStale (now - m * 60) t then
        ({ t with status := "pending", worker := none,
                  assigned_at := none } : Task) else t).id = t.id
      split <;> rfl

theorem traceOk_cons (ts : List Task) (op : Op) (rest : List Op) :
    traceOk ts (op :: rest) =
      (stepOk ts (applyOp ts op) && traceOk (applyOp ts op) rest) := rfl

theorem reportsTargetAssigned_cons (ts : List Task) (op : Op) (rest : List Op) :
    reportsTargetAssigned ts (op :: rest) =
      ((match op with
        | .report rs _ =>
            rs.all (fun r => ts.all
              (fun t => t.id != r.task_id || t.status == "assigned"))
        | _ => true) && reportsTargetAssigned (applyOp ts op) rest) := rfl

/-- C3 (amended): over any replay of pull/report/recover_stale
operations from a table with distinct ids, every status change follows
the diagram — `pending→assigned` by pull, `assigned→done`/
`assigned→failed` by report, `assigned→pending` by recover_stale —
*provided* every report batch targets only rows that are `assigned`
when it runs; a report itself carries no status guard and would rewrite
a row in any state. -/
theorem transitions_ok (s0 : List Task) (ops : List Op)
    (hids : (s0.map Task.id).Nodup)
    (hrep : reportsTargetAssigned s0 ops = true) :
    traceOk s0 ops = true := by
  induction ops generalizing s0 with
  | nil => rfl
  | cons op rest ih =>
      rw [reportsTargetAssigned_cons, Bool.and_eq_true] at hrep
      rw [traceOk_cons, Bool.and_eq_true]
      refine ⟨?_, ih (applyOp s0 op)
        (by rw [applyOp_map_id]; exact hids) hrep.2⟩
      cases op with
      | pull w n now => exact pull_step_ok s0 w n now hids
      | report rs now =>
          apply report_step_ok
          intro r hr t ht hid
          have hall := hrep.1
          simp only [List.all_eq_true, Bool.or_eq_true, bne_iff_ne,
            beq_iff_eq] at hall
          rcases hall r hr t ht with h1 | h1
          · exact absurd hid h1
          · exact h1
      | recover m now => exact recover_step_ok s0 m now

/-- C3 counterexample: a report batch naming a task that is still
`pending` rewrites it straight to `done` — the change `pending→done` is
outside the diagram, so the replay check fails. -/
theorem report_pending_claim_false :
    let s0 := [mkPendingTask 1 "/pdfs/a.pdf" "/out/a.txt"]
    let rep : Op := Op.report
      [⟨1, "done", some "pdftotext", some 500, none, some "w1"⟩] 6
    traceOk s0 [rep] = false ∧
      (applyOp s0 rep).map Task.status = ["done"] ∧
      allowedTransition "pending" "done" = false := by
  decide

/-- C3 witness: seed two pending tasks, pull one, report it done, then
sweep — the replay respects the diagram. -/
theorem transitions_ok_witness :
    reportsTargetAssigned
        [mkPendingTask 1 "/pdfs/a.pdf" "/out/a.txt",
         mkPendingTask 2 "/pdfs/b.pdf" "/out/b.txt"]
        [Op.pull "w1" 1 5,
         Op.report [⟨1, "done", some "pdftotext", some 500, none, some "w1"⟩] 6,
         Op.recover 10 700] = true ∧
    traceOk
        [mkPendingTask 1 "/pdfs/a.pdf" "/out/a.txt",
         mkPendingTask 2 "/pdfs/b.pdf" "/out/b.txt"]
        [Op.pull "w1" 1 5,
         Op.report [⟨1, "done", some "pdftotext", some 500, none, some "w1"⟩] 6,
         Op.recover 10 700] = true :=
  ⟨by decide,
   transitions_ok
     [mkPendingTask 1 "/pdfs/a.pdf" "/out/a.txt",
      mkPendingTask 2 "/pdfs/b.pdf" "/out/b.txt"]
     [Op.pull "w1" 1 5,
      Op.report [⟨1, "done", some "pdftotext", some 500, none, some "w1"⟩] 6,
      Op.recover 10 700] (by decide) (by decide)⟩

/-! ## C8: rate, ETA and history -/

theorem sorted_headD_le (l : List (ℚ × Int))
    (hpw : l.Pairwise (fun a b => a.1 < b.1)) (hne : l ≠ []) :
    ∀ c ∈ l, (l.headD (0, 0)).1 ≤ c.1 := by
  cases l with
  | nil => exact absurd rfl hne
  | cons a rest =>
      intro c hc
      rcases List.mem_cons.1 hc with rfl | hc'
      · exact le_refl _
      · exact le_of_lt ((List.pairwise_cons.1 hpw).1 c hc')

theorem sorted_le_getLastD (l : List (ℚ × Int)) :
    ∀ d : ℚ × Int, l.Pairwise (fun a b => a.1 < b.1) →
      ∀ c ∈ l, c.1 ≤ (l.getLastD d).1 := by
  induction l with
  | nil => intro d _ c hc; exact absurd hc (List.not_mem_nil c)
  | cons a rest ih =>
      intro d hpw c hc
      have hpw' := List.pairwise_cons.1 hpw
      rw [List.getLastD_cons]
      rcases List.mem_cons.1 hc with rfl | hc'
      · cases rest with
        | nil => exact le_refl _
        | cons b rest' =>
            exact le_trans (le_of_lt (hpw'.1 b (by simp)))
              (ih c hpw'.2 b (by simp))
      · exact ih a hpw'.2 c hc'

/-- C8 counterexample: history entries are rounded to one decimal.  For
samples `(0,0)` and `(40,1)` the per-interval rate `Δcount/Δt` is
`1/40 = 0.025`, but the reported history entry is `round(0.025, 1) = 0`. -/
theorem rate_history_claim_false :
    (get_rate_info (List.replicate 30 (mkPendingTask 1 "/pdfs/a.pdf" "/out/a.txt"))
        [(0, 0), (40, 1)] 40).history ≠ [(1 : ℚ) / 40] := by
  have hf : Int.fract ((1 : ℚ) / 4) = 1 / 4 := Int.fract_eq_self.2 (by norm_num)
  have h : (get_rate_info
      (List.replicate 30 (mkPendingTask 1 "/pdfs/a.pdf" "/out/a.txt"))
      [(0, 0), (40, 1)] 40).history = [0] := by
    norm_num [get_rate_info, rateHistory, round1, rndHalfEven, hf]
  rw [h]
  norm_num

/-- C8 (amended): the unrounded rate spans the earliest and latest of
the samples in the last 60 seconds (else the last two samples overall);
the *reported* `rate_per_sec` and each history entry are that quotient
rounded to one decimal with ties to even, while `eta_seconds` divides
pending+assigned by the unrounded rate (0 when the rate is not
positive).  For the three samples 10 s apart with counts 0, 5, 15 and
30 pending tasks the unrounded rate is 0.75 — reported as 0.8 —
`history = [0.5, 1.0]` and `eta_seconds = 40`. -/
theorem get_rate_info_spec (tasks : List Task) (rows : List (ℚ × Int)) (now : ℚ)
    (hsorted : rows.Pairwise (fun a b => a.1 < b.1)) (hlen : 2 ≤ rows.length) :
    ((rows.filter (fun r => decide (now - 60 < r.1)) ≠ []) →
      ∀ c ∈ rows.filter (fun r => decide (now - 60 < r.1)),
        ((rows.filter (fun r => decide (now - 60 < r.1))).headD (0, 0)).1 ≤ c.1 ∧
        c.1 ≤ ((rows.filter (fun r => decide (now - 60 < r.1))).getLastD (0, 0)).1) ∧
    ((get_rate_info tasks rows now).rate_per_sec = round1 (currentRate rows now)) ∧
    ((get_rate_info tasks rows now).eta_seconds =
      (if 0 < currentRate rows now then
        pyInt (((countStatus tasks "pending" + countStatus tasks "assigned" : ℕ) : ℚ) /
          currentRate rows now)
       else 0)) ∧
    ((get_rate_info tasks rows now).history = rateHistory rows) ∧
    (get_rate_info (List.replicate 30 (mkPendingTask 1 "/pdfs/a.pdf" "/out/a.txt"))
        [(0, 0), (10, 5), (20, 15)] 20 = ⟨4 / 5, 40, [1 / 2, 1]⟩) ∧
    (currentRate [(0, 0), (10, 5), (20, 15)] 20 = 3 / 4) := by
  have hng : ¬(rows.length < 2) := by omega
  have hfilpw : (rows.filter (fun r => decide (now - 60 < r.1))).Pairwise
      (fun a b => a.1 < b.1) := hsorted.filter _
  refine ⟨?_, ?_, ?_, ?_, ?_, ?_⟩
  · intro hne c hc
    exact ⟨sorted_headD_le _ hfilpw hne c hc,
      sorted_le_getLastD _ (0, 0) hfilpw c hc⟩
  · unfold get_rate_info
    rw [if_neg hng]
  · unfold get_rate_info
    rw [if_neg hng]
  · unfold get_rate_info
    rw [if_neg hng]
  · have hcp : countStatus
        (List.replicate 30 (mkPendingTask 1 "/pdfs/a.pdf" "/out/a.txt"))
        "pending" = 30 := by simp [countStatus, mkPendingTask]
    have hca : countStatus
        (List.replicate 30 (mkPendingTask 1 "/pdfs/a.pdf" "/out/a.txt"))
        "assigned" = 0 := by simp [countStatus, mkPendingTask]
    norm_num [get_rate_info, currentRate, rateHistory, round1, rndHalfEven,
      pyInt, hcp, hca]
  · norm_num [currentRate]

/-- C8 witness: the spec's three-sample scenario. -/
theorem get_rate_info_spec_witness :
    (([((0 : ℚ), (0 : ℤ)), (10, 5), (20, 15)] :
        List (ℚ × Int)).Pairwise (fun a b => a.1 < b.1)) ∧
    (get_rate_info (List.replicate 30 (mkPendingTask 1 "/pdfs/a.pdf" "/out/a.txt"))
        [(0, 0), (10, 5), (20, 15)] 20 = ⟨4 / 5, 40, [1 / 2, 1]⟩) :=
  ⟨by decide,
   (get_rate_info_spec
     (List.replicate 30 (mkPendingTask 1 "/pdfs/a.pdf" "/out/a.txt"))
     [(0, 0), (10, 5), (20, 15)] 20 (by decide) (by decide)).2.2.2.2.1⟩

end Hive
